import Mathlib

/-!
Verification development for the `workerpool` Go repository (`pool.go`).

The pool is embedded as a labeled transition system.  Goroutines of the
source program (the `run` spawn loop, the workers, `Schedule` callers,
`returnTask` re-senders and the `Free` caller) become components of a
`PoolState`, and every synchronization action of the source (a channel
rendezvous, a buffered-channel send/receive on `active`, closing `quit`,
`wg.Wait` returning) becomes one constructor of the `Step` relation.
Code between two synchronization actions of one goroutine is coalesced
into a single atomic step.  Go `select` nondeterminism (any ready case
may be chosen) is modelled by making one `Step` constructor per case,
each enabled exactly when its case is ready in the source.
-/

set_option autoImplicit false

namespace Workerpool

/-- The constant `defaultCapacity = 100` from the const block of pool.go. -/
def defaultCapacity : Int := 100

/-- The constant `maxCapacity = 10000` from the const block of pool.go. -/
def maxCapacity : Int := 10000

/-- The capacity correction performed at the top of `New`:
`if capacity <= 0 { capacity = defaultCapacity }` followed by
`if capacity > maxCapacity { capacity = maxCapacity }`. -/
def clampCapacity (capacity : Int) : Int :=
  let c1 := if capacity ≤ 0 then defaultCapacity else capacity
  if c1 > maxCapacity then maxCapacity else c1

/-- Tasks are opaque (`type Task func()`); we identify a submitted task by
a numeric tag, which is all the pool itself ever observes. -/
abbrev TaskId := Nat

/-- The observable status of one `Schedule` invocation:
`pending` means the caller is blocked in the unconditional `p.tasks <- t`
send of the `p.block` branch; `retNil` means `Schedule` returned `nil`;
`retFreed` means it returned `ErrWorkerPoolFreed`; `retNoIdle` means it
returned `ErrNoIdleWorkerInPool`. -/
inductive SchedStatus
  | pending
  | retNil
  | retFreed
  | retNoIdle
  deriving DecidableEq

/-- Program counter of the `run` goroutine.
`lazyRecv`: blocked receiving at `for t := range p.tasks` (lazy pools only).
`lazySelect`: just received a task, executed `p.returnTask(t)`, and is at
the inner `select` (quit / `p.active <- struct{}{}` / default).
`steady`: in the final `for { select ... } }` loop.
`done`: the `run` goroutine has returned. -/
inductive RunPC
  | lazyRecv
  | lazySelect
  | steady
  | done
  deriving DecidableEq

/-- Global state of one pool together with its clients.
`active` is the number of tokens in the buffered `active` channel;
`idle` counts workers parked in their `select` (quit vs. task);
`busy` lists the tasks currently being executed, one per executing worker;
`pendingReturns` lists the `returnTask` goroutines blocked on `p.tasks <- t`
in FIFO order; `sched` records every `Schedule` invocation by task id;
`started` lists the tasks that have begun executing on some worker;
`freeWaiting` is set once `Free` has closed `quit` and entered `wg.Wait`;
`freeReturned` is set once that `wg.Wait` has returned;
`panicked` is set if a `close` of the already-closed `quit` occurred. -/
structure PoolState where
  capacity : Nat
  preAlloc : Bool
  block : Bool
  quitClosed : Bool
  active : Nat
  idle : Nat
  busy : List TaskId
  runPC : RunPC
  pendingReturns : List TaskId
  sched : TaskId → Option SchedStatus
  started : List TaskId
  freeWaiting : Bool
  freeReturned : Bool
  panicked : Bool

/-- The number of live worker goroutines (spawned and not yet exited);
this is also the value of the pool's `sync.WaitGroup` counter. -/
def live (s : PoolState) : Nat := s.idle + s.busy.length

/-- The state in which `New` returns the pool to its caller.
`New` clamps the capacity, builds the channels, applies the options,
runs the pre-allocation loop when `preAlloc` is set (spawning exactly
`capacity` workers and filling `active`), and starts `run`, which skips
the lazy loop exactly when `preAlloc` is set.
The two boolean parameters stand for the functional options applied in
the `for _, opt := range opts` loop; the option constructors themselves
are not part of pool.go, but per the spec they only set `preAlloc`
and `block` (whose default, `true`, is set in pool.go itself). -/
def New (capacity : Int) (preAlloc block : Bool) : PoolState :=
  let c := (clampCapacity capacity).toNat
  { capacity := c
    preAlloc := preAlloc
    block := block
    quitClosed := false
    active := if preAlloc then c else 0
    idle := if preAlloc then c else 0
    busy := []
    runPC := if preAlloc then .steady else .lazyRecv
    pendingReturns := []
    sched := fun _ => none
    started := []
    freeWaiting := false
    freeReturned := false
    panicked := false }

/-- One synchronization event of the pool, naming which source-level
action fired. -/
inductive Label
  | schedFreed (t : TaskId)
  | schedToWorker (t : TaskId)
  | schedToRun (t : TaskId)
  | schedNoIdle (t : TaskId)
  | schedBlock (t : TaskId)
  | workerTakeCall (t : TaskId)
  | runTakeCall (t : TaskId)
  | workerTakeReturn (t : TaskId)
  | runTakeReturn (t : TaskId)
  | runLazyQuit
  | runLazySpawn
  | runLazyBreak
  | runSteadySpawn
  | runSteadyQuit
  | workerFinish (t : TaskId)
  | workerFault (t : TaskId)
  | workerQuitExit
  | freeClose
  | freeCloseAgain
  | freeReturn
  deriving DecidableEq

/-- The labels that represent the entry of a fresh `Schedule t` call
resolving its initial `select`. -/
def SchedEntry (l : Label) (t : TaskId) : Prop :=
  l = .schedFreed t ∨ l = .schedToWorker t ∨ l = .schedToRun t ∨
  l = .schedNoIdle t ∨ l = .schedBlock t

/-- Small-step semantics of pool.go.  Each constructor is one
synchronization action:

* `schedFreed`: `Schedule`'s `select` takes `case <-p.quit` (ready iff
  `quit` is closed) and returns `ErrWorkerPoolFreed`.
* `schedToWorker`: the `case p.tasks <- t` of `Schedule` rendezvouses
  with a worker parked in its `select`; the worker starts executing `t`.
* `schedToRun`: the same send case rendezvouses with `run` parked at
  `for t := range p.tasks`; `run` immediately calls `p.returnTask(t)`,
  adding a blocked re-sender of `t`, and proceeds to its inner `select`.
* `schedNoIdle` / `schedBlock`: no `select` case is ready (quit open, no
  parked receiver on `tasks`), so the `default` branch runs; with
  `p.block == false` it returns `ErrNoIdleWorkerInPool`, otherwise the
  caller commits to the unconditional blocking send `p.tasks <- t`.
* `workerTakeCall` / `runTakeCall`: a receiver rendezvouses with a
  caller blocked in that unconditional send, which then returns `nil`.
* `workerTakeReturn` / `runTakeReturn`: a receiver rendezvouses with the
  oldest blocked `returnTask` re-sender (channel send queues are FIFO).
* `runLazyQuit` / `runLazySpawn` / `runLazyBreak`: the three cases of the
  inner `select` of the lazy loop: quit observed, a token sent into
  `active` followed by `p.newWorker(idx)`, or the `default` (`break loop`)
  when `active` is full and quit is open.
* `runSteadySpawn` / `runSteadyQuit`: the two cases of the steady loop's
  `select`.
* `workerFinish`: a worker's task `t()` returns; the worker loops back to
  its `select`.
* `workerFault`: a worker's task panics; the deferred function recovers,
  receives a token from `active`, and `wg.Done` runs as the worker exits.
* `workerQuitExit`: a parked worker takes `case <-p.quit`, receives a
  token from `active`, and exits through `wg.Done`.
* `freeClose`: `Free` runs `close(p.quit)` on the open channel and enters
  `p.wg.Wait()`.
* `freeCloseAgain`: a further `Free` call runs `close(p.quit)` on the
  already-closed channel, which panics.
* `freeReturn`: `p.wg.Wait()` returns because the counter is zero. -/
inductive Step : PoolState → Label → PoolState → Prop
  | schedFreed (s : PoolState) (t : TaskId)
      (hq : s.quitClosed = true) (hfresh : s.sched t = none) :
      Step s (.schedFreed t)
        { s with sched := Function.update s.sched t (some .retFreed) }
  | schedToWorker (s : PoolState) (t : TaskId)
      (hi : 1 ≤ s.idle) (hfresh : s.sched t = none) :
      Step s (.schedToWorker t)
        { s with idle := s.idle - 1
                 busy := t :: s.busy
                 started := t :: s.started
                 sched := Function.update s.sched t (some .retNil) }
  | schedToRun (s : PoolState) (t : TaskId)
      (hr : s.runPC = .lazyRecv) (hfresh : s.sched t = none) :
      Step s (.schedToRun t)
        { s with runPC := .lazySelect
                 pendingReturns := s.pendingReturns ++ [t]
                 sched := Function.update s.sched t (some .retNil) }
  | schedNoIdle (s : PoolState) (t : TaskId)
      (hq : s.quitClosed = false) (hi : s.idle = 0)
      (hr : s.runPC ≠ .lazyRecv) (hb : s.block = false)
      (hfresh : s.sched t = none) :
      Step s (.schedNoIdle t)
        { s with sched := Function.update s.sched t (some .retNoIdle) }
  | schedBlock (s : PoolState) (t : TaskId)
      (hq : s.quitClosed = false) (hi : s.idle = 0)
      (hr : s.runPC ≠ .lazyRecv) (hb : s.block = true)
      (hfresh : s.sched t = none) :
      Step s (.schedBlock t)
        { s with sched := Function.update s.sched t (some .pending) }
  | workerTakeCall (s : PoolState) (t : TaskId)
      (hi : 1 ≤ s.idle) (hp : s.sched t = some .pending) :
      Step s (.workerTakeCall t)
        { s with idle := s.idle - 1
                 busy := t :: s.busy
                 started := t :: s.started
                 sched := Function.update s.sched t (some .retNil) }
  | runTakeCall (s : PoolState) (t : TaskId)
      (hr : s.runPC = .lazyRecv) (hp : s.sched t = some .pending) :
      Step s (.runTakeCall t)
        { s with runPC := .lazySelect
                 pendingReturns := s.pendingReturns ++ [t]
                 sched := Function.update s.sched t (some .retNil) }
  | workerTakeReturn (s : PoolState) (t : TaskId) (rest : List TaskId)
      (hi : 1 ≤ s.idle) (hp : s.pendingReturns = t :: rest) :
      Step s (.workerTakeReturn t)
        { s with idle := s.idle - 1
                 busy := t :: s.busy
                 started := t :: s.started
                 pendingReturns := rest }
  | runTakeReturn (s : PoolState) (t : TaskId) (rest : List TaskId)
      (hr : s.runPC = .lazyRecv) (hp : s.pendingReturns = t :: rest) :
      Step s (.runTakeReturn t)
        { s with runPC := .lazySelect
                 pendingReturns := rest ++ [t] }
  | runLazyQuit (s : PoolState)
      (hr : s.runPC = .lazySelect) (hq : s.quitClosed = true) :
      Step s .runLazyQuit { s with runPC := .done }
  | runLazySpawn (s : PoolState)
      (hr : s.runPC = .lazySelect) (hc : s.active < s.capacity) :
      Step s .runLazySpawn
        { s with active := s.active + 1
                 idle := s.idle + 1
                 runPC := .lazyRecv }
  | runLazyBreak (s : PoolState)
      (hr : s.runPC = .lazySelect) (hq : s.quitClosed = false)
      (hc : s.active = s.capacity) :
      Step s .runLazyBreak { s with runPC := .steady }
  | runSteadySpawn (s : PoolState)
      (hr : s.runPC = .steady) (hc : s.active < s.capacity) :
      Step s .runSteadySpawn
        { s with active := s.active + 1, idle := s.idle + 1 }
  | runSteadyQuit (s : PoolState)
      (hr : s.runPC = .steady) (hq : s.quitClosed = true) :
      Step s .runSteadyQuit { s with runPC := .done }
  | workerFinish (s : PoolState) (t : TaskId) (l1 l2 : List TaskId)
      (hb : s.busy = l1 ++ t :: l2) :
      Step s (.workerFinish t)
        { s with busy := l1 ++ l2, idle := s.idle + 1 }
  | workerFault (s : PoolState) (t : TaskId) (l1 l2 : List TaskId)
      (hb : s.busy = l1 ++ t :: l2) (ha : 1 ≤ s.active) :
      Step s (.workerFault t)
        { s with busy := l1 ++ l2, active := s.active - 1 }
  | workerQuitExit (s : PoolState)
      (hq : s.quitClosed = true) (hi : 1 ≤ s.idle) (ha : 1 ≤ s.active) :
      Step s .workerQuitExit
        { s with idle := s.idle - 1, active := s.active - 1 }
  | freeClose (s : PoolState) (hq : s.quitClosed = false) :
      Step s .freeClose { s with quitClosed := true, freeWaiting := true }
  | freeCloseAgain (s : PoolState) (hq : s.quitClosed = true) :
      Step s .freeCloseAgain { s with panicked := true }
  | freeReturn (s : PoolState)
      (hw : s.freeWaiting = true) (hi : s.idle = 0) (hb : s.busy = []) :
      Step s .freeReturn { s with freeReturned := true }

/-- Reflexive-transitive closure of `Step`: the states an execution can
reach from a given state. -/
inductive Reaches : PoolState → PoolState → Prop
  | refl (s : PoolState) : Reaches s s
  | tail {s s1 s2 : PoolState} {l : Label}
      (h : Reaches s s1) (hs : Step s1 l s2) : Reaches s s2

/-- The pool's global accounting invariant: the tokens in `active` count
exactly the live workers, never exceed the capacity, `Free` phases imply
the quit channel is closed, and every task accepted with a `nil` return
has either started executing on a worker or is still held by a blocked
`returnTask` re-sender. -/
def Inv (s : PoolState) : Prop :=
  s.active = live s ∧
  s.active ≤ s.capacity ∧
  (s.freeWaiting = true → s.quitClosed = true) ∧
  (s.freeReturned = true → s.freeWaiting = true) ∧
  (∀ t, s.sched t = some .retNil → t ∈ s.started ∨ t ∈ s.pendingReturns)

lemma new_inv (n : Int) (pre blk : Bool) : Inv (New n pre blk) := by
  refine ⟨?_, ?_, ?_, ?_, ?_⟩ <;> cases pre <;> simp [New, live]

lemma step_inv {s : PoolState} {l : Label} {s2 : PoolState}
    (h : Inv s) (hs : Step s l s2) : Inv s2 := by
  obtain ⟨h1, h2, h3, h4, h5⟩ := h
  cases hs with
  | schedFreed t hq hfresh =>
      refine ⟨h1, h2, h3, h4, ?_⟩
      intro u hu
      replace hu : Function.update s.sched t (some .retFreed) u
          = some .retNil := hu
      rcases eq_or_ne u t with he | he
      · subst he; rw [Function.update_same] at hu; simp at hu
      · rw [Function.update_noteq he] at hu; exact h5 u hu
  | schedToWorker t hi hfresh =>
      refine ⟨?_, h2, h3, h4, ?_⟩
      · show s.active = s.idle - 1 + (t :: s.busy).length
        simp only [live, List.length_cons] at h1 ⊢; omega
      · intro u hu
        replace hu : Function.update s.sched t (some .retNil) u
            = some .retNil := hu
        show u ∈ t :: s.started ∨ u ∈ s.pendingReturns
        rcases eq_or_ne u t with he | he
        · subst he; exact Or.inl (List.mem_cons_self u s.started)
        · rw [Function.update_noteq he] at hu
          exact (h5 u hu).imp (List.mem_cons_of_mem t) id
  | schedToRun t hr hfresh =>
      refine ⟨h1, h2, h3, h4, ?_⟩
      intro u hu
      replace hu : Function.update s.sched t (some .retNil) u
          = some .retNil := hu
      show u ∈ s.started ∨ u ∈ s.pendingReturns ++ [t]
      rcases eq_or_ne u t with he | he
      · subst he; exact Or.inr (by simp)
      · rw [Function.update_noteq he] at hu
        exact (h5 u hu).imp id (fun h => List.mem_append_left _ h)
  | schedNoIdle t hq hi hr hb hfresh =>
      refine ⟨h1, h2, h3, h4, ?_⟩
      intro u hu
      replace hu : Function.update s.sched t (some .retNoIdle) u
          = some .retNil := hu
      rcases eq_or_ne u t with he | he
      · subst he; rw [Function.update_same] at hu; simp at hu
      · rw [Function.update_noteq he] at hu; exact h5 u hu
  | schedBlock t hq hi hr hb hfresh =>
      refine ⟨h1, h2, h3, h4, ?_⟩
      intro u hu
      replace hu : Function.update s.sched t (some .pending) u
          = some .retNil := hu
      rcases eq_or_ne u t with he | he
      · subst he; rw [Function.update_same] at hu; simp at hu
      · rw [Function.update_noteq he] at hu; exact h5 u hu
  | workerTakeCall t hi hp =>
      refine ⟨?_, h2, h3, h4, ?_⟩
      · show s.active = s.idle - 1 + (t :: s.busy).length
        simp only [live, List.length_cons] at h1 ⊢; omega
      · intro u hu
        replace hu : Function.update s.sched t (some .retNil) u
            = some .retNil := hu
        show u ∈ t :: s.started ∨ u ∈ s.pendingReturns
        rcases eq_or_ne u t with he | he
        · subst he; exact Or.inl (List.mem_cons_self u s.started)
        · rw [Function.update_noteq he] at hu
          exact (h5 u hu).imp (List.mem_cons_of_mem t) id
  | runTakeCall t hr hp =>
      refine ⟨h1, h2, h3, h4, ?_⟩
      intro u hu
      replace hu : Function.update s.sched t (some .retNil) u
          = some .retNil := hu
      show u ∈ s.started ∨ u ∈ s.pendingReturns ++ [t]
      rcases eq_or_ne u t with he | he
      · subst he; exact Or.inr (by simp)
      · rw [Function.update_noteq he] at hu
        exact (h5 u hu).imp id (fun h => List.mem_append_left _ h)
  | workerTakeReturn t rest hi hp =>
      refine ⟨?_, h2, h3, h4, ?_⟩
      · show s.active = s.idle - 1 + (t :: s.busy).length
        simp only [live, List.length_cons] at h1 ⊢; omega
      · intro u hu
        replace hu : s.sched u = some .retNil := hu
        show u ∈ t :: s.started ∨ u ∈ rest
        rcases h5 u hu with h | h
        · exact Or.inl (List.mem_cons_of_mem t h)
        · rw [hp] at h
          rcases List.mem_cons.mp h with h | h
          · exact Or.inl (by rw [h]; exact List.mem_cons_self t s.started)
          · exact Or.inr h
  | runTakeReturn t rest hr hp =>
      refine ⟨h1, h2, h3, h4, ?_⟩
      intro u hu
      replace hu : s.sched u = some .retNil := hu
      show u ∈ s.started ∨ u ∈ rest ++ [t]
      rcases h5 u hu with h | h
      · exact Or.inl h
      · rw [hp] at h
        rcases List.mem_cons.mp h with h | h
        · exact Or.inr (by simp [h])
        · exact Or.inr (List.mem_append_left _ h)
  | runLazyQuit hr hq => exact ⟨h1, h2, h3, h4, h5⟩
  | runLazySpawn hr hc =>
      refine ⟨?_, ?_, h3, h4, h5⟩
      · show s.active + 1 = s.idle + 1 + s.busy.length
        simp only [live] at h1; omega
      · show s.active + 1 ≤ s.capacity
        omega
  | runLazyBreak hr hq hc => exact ⟨h1, h2, h3, h4, h5⟩
  | runSteadySpawn hr hc =>
      refine ⟨?_, ?_, h3, h4, h5⟩
      · show s.active + 1 = s.idle + 1 + s.busy.length
        simp only [live] at h1; omega
      · show s.active + 1 ≤ s.capacity
        omega
  | runSteadyQuit hr hq => exact ⟨h1, h2, h3, h4, h5⟩
  | workerFinish t l1 l2 hb =>
      refine ⟨?_, h2, h3, h4, h5⟩
      show s.active = s.idle + 1 + (l1 ++ l2).length
      simp only [live, hb, List.length_append, List.length_cons] at h1 ⊢
      omega
  | workerFault t l1 l2 hb ha =>
      refine ⟨?_, by show s.active - 1 ≤ s.capacity; omega, h3, h4, h5⟩
      show s.active - 1 = s.idle + (l1 ++ l2).length
      simp only [live, hb, List.length_append, List.length_cons] at h1 ⊢
      omega
  | workerQuitExit hq hi ha =>
      refine ⟨?_, by show s.active - 1 ≤ s.capacity; omega, h3, h4, h5⟩
      show s.active - 1 = s.idle - 1 + s.busy.length
      simp only [live] at h1; omega
  | freeClose hq =>
      exact ⟨h1, h2, fun _ => rfl, fun _ => rfl, h5⟩
  | freeCloseAgain hq => exact ⟨h1, h2, h3, h4, h5⟩
  | freeReturn hw hi hb => exact ⟨h1, h2, h3, fun _ => hw, h5⟩

lemma reaches_inv {n : Int} {pre blk : Bool} {s : PoolState}
    (h : Reaches (New n pre blk) s) : Inv s := by
  induction h with
  | refl => exact new_inv n pre blk
  | tail h hs ih => exact step_inv ih hs

lemma step_capacity {s : PoolState} {l : Label} {s2 : PoolState}
    (hs : Step s l s2) : s2.capacity = s.capacity := by
  cases hs <;> rfl

lemma reaches_capacity {n : Int} {pre blk : Bool} {s : PoolState}
    (h : Reaches (New n pre blk) s) :
    s.capacity = (clampCapacity n).toNat := by
  induction h with
  | refl => rfl
  | tail h hs ih => rw [step_capacity hs, ih]

/-- A pool state in which shutdown has fully completed: the quit channel
is closed, the `run` goroutine has returned and no worker goroutine is
live.  No receiver on the `tasks` channel exists in such a state, so no
blocked sender can ever complete from it. -/
def Dead (s : PoolState) : Prop :=
  s.quitClosed = true ∧ s.runPC = .done ∧ s.idle = 0 ∧ s.busy = []

lemma update_pending_of_fresh {f : TaskId → Option SchedStatus}
    {t u : TaskId} {v : Option SchedStatus}
    (hp : f t = some .pending) (hfresh : f u = none) :
    Function.update f u v t = some .pending := by
  have hne : t ≠ u := fun he => by
    rw [he, hfresh] at hp; exact Option.noConfusion hp
  rw [Function.update_noteq hne]; exact hp

lemma dead_step {s : PoolState} {l : Label} {s2 : PoolState}
    (hd : Dead s) (hs : Step s l s2) :
    Dead s2 ∧ s2.started = s.started ∧
      (∀ t, s.sched t = some .pending → s2.sched t = some .pending) := by
  obtain ⟨hq, hrun, hidle, hbusy⟩ := hd
  cases hs with
  | schedFreed t hq2 hfresh =>
      refine ⟨⟨hq, hrun, hidle, hbusy⟩, rfl, ?_⟩
      intro u hu
      exact update_pending_of_fresh hu hfresh
  | schedToWorker t hi hfresh => omega
  | schedToRun t hr hfresh => simp [hrun] at hr
  | schedNoIdle t hq2 hi hr hb hfresh => simp [hq] at hq2
  | schedBlock t hq2 hi hr hb hfresh => simp [hq] at hq2
  | workerTakeCall t hi hp => omega
  | runTakeCall t hr hp => simp [hrun] at hr
  | workerTakeReturn t rest hi hp => omega
  | runTakeReturn t rest hr hp => simp [hrun] at hr
  | runLazyQuit hr hq2 => simp [hrun] at hr
  | runLazySpawn hr hc => simp [hrun] at hr
  | runLazyBreak hr hq2 hc => simp [hrun] at hr
  | runSteadySpawn hr hc => simp [hrun] at hr
  | runSteadyQuit hr hq2 => simp [hrun] at hr
  | workerFinish t l1 l2 hb => rw [hbusy] at hb; simp at hb
  | workerFault t l1 l2 hb ha => rw [hbusy] at hb; simp at hb
  | workerQuitExit hq2 hi ha => omega
  | freeClose hq2 => simp [hq] at hq2
  | freeCloseAgain hq2 =>
      exact ⟨⟨hq, hrun, hidle, hbusy⟩, rfl, fun _ hu => hu⟩
  | freeReturn hw hi hb =>
      exact ⟨⟨hq, hrun, hidle, hbusy⟩, rfl, fun _ hu => hu⟩

lemma dead_reaches {s s2 : PoolState} (hd : Dead s) (h : Reaches s s2) :
    Dead s2 ∧ s2.started = s.started ∧
      (∀ t, s.sched t = some .pending → s2.sched t = some .pending) := by
  induction h with
  | refl => exact ⟨hd, rfl, fun _ hu => hu⟩
  | tail h hs ih =>
      obtain ⟨d1, hst1, hp1⟩ := ih
      obtain ⟨d2, hst2, hp2⟩ := dead_step d1 hs
      exact ⟨d2, hst2.trans hst1, fun t ht => hp2 t (hp1 t ht)⟩

lemma pending_step {s : PoolState} {l : Label} {s2 : PoolState} {t : TaskId}
    (hp : s.sched t = some .pending) (hs : Step s l s2) :
    s2.sched t = some .pending ∨ s2.sched t = some .retNil := by
  cases hs with
  | schedFreed u hq hfresh => exact Or.inl (update_pending_of_fresh hp hfresh)
  | schedToWorker u hi hfresh =>
      exact Or.inl (update_pending_of_fresh hp hfresh)
  | schedToRun u hr hfresh => exact Or.inl (update_pending_of_fresh hp hfresh)
  | schedNoIdle u hq hi hr hb hfresh =>
      exact Or.inl (update_pending_of_fresh hp hfresh)
  | schedBlock u hq hi hr hb hfresh =>
      exact Or.inl (update_pending_of_fresh hp hfresh)
  | workerTakeCall u hi hp2 =>
      rcases eq_or_ne t u with he | he
      · subst he
        right
        show Function.update s.sched t (some .retNil) t = some .retNil
        rw [Function.update_same]
      · left
        show Function.update s.sched u (some .retNil) t = some .pending
        rw [Function.update_noteq he]; exact hp
  | runTakeCall u hr hp2 =>
      rcases eq_or_ne t u with he | he
      · subst he
        right
        show Function.update s.sched t (some .retNil) t = some .retNil
        rw [Function.update_same]
      · left
        show Function.update s.sched u (some .retNil) t = some .pending
        rw [Function.update_noteq he]; exact hp
  | workerTakeReturn u rest hi hp2 => exact Or.inl hp
  | runTakeReturn u rest hr hp2 => exact Or.inl hp
  | runLazyQuit hr hq => exact Or.inl hp
  | runLazySpawn hr hc => exact Or.inl hp
  | runLazyBreak hr hq hc => exact Or.inl hp
  | runSteadySpawn hr hc => exact Or.inl hp
  | runSteadyQuit hr hq => exact Or.inl hp
  | workerFinish u l1 l2 hb => exact Or.inl hp
  | workerFault u l1 l2 hb ha => exact Or.inl hp
  | workerQuitExit hq hi ha => exact Or.inl hp
  | freeClose hq => exact Or.inl hp
  | freeCloseAgain hq => exact Or.inl hp
  | freeReturn hw hi hb => exact Or.inl hp

/-- Claim C9: `New` never fails on a bad capacity argument: the stored
capacity is `defaultCapacity` (100) when the request is non-positive,
`maxCapacity` (10000) when the request exceeds it, and the request
itself otherwise; construction silently corrects rather than returning
an error. -/
theorem C9_capacity_clamped_never_error :
    (∀ n : Int, clampCapacity n =
        if n ≤ 0 then defaultCapacity
        else if n > maxCapacity then maxCapacity else n) ∧
    (∀ (n : Int) (pre blk : Bool),
        (New n pre blk).capacity = (clampCapacity n).toNat) := by
  constructor
  · intro n
    by_cases h : n ≤ 0
    · simp [clampCapacity, h, defaultCapacity, maxCapacity]
    · simp [clampCapacity, h]
  · intro n pre blk
    rfl

/-- Claim C8: with `preAlloc = true` and clamped capacity `C`, the state
in which `New` returns has exactly `C` live workers (all idle), all `C`
capacity slots occupied, and no task submitted or started yet. -/
theorem C8_preAlloc_constructs_capacity_workers :
    ∀ (n : Int) (blk : Bool),
      live (New n true blk) = (New n true blk).capacity ∧
      (New n true blk).active = (New n true blk).capacity ∧
      (New n true blk).idle = (New n true blk).capacity ∧
      (New n true blk).busy = [] ∧
      (New n true blk).started = [] ∧
      (∀ t : TaskId, (New n true blk).sched t = none) := by
  intro n blk
  refine ⟨?_, rfl, rfl, rfl, rfl, fun _ => rfl⟩
  simp [New, live]

/-- Claim C4: in every reachable state of every pool, the number of live
workers equals the number of occupied capacity slots and never exceeds
the clamped capacity, for both pre-allocated and lazy pools. -/
theorem C4_live_workers_le_capacity :
    ∀ (n : Int) (pre blk : Bool) (s : PoolState),
      Reaches (New n pre blk) s →
      live s ≤ s.capacity ∧ s.active = live s ∧
      s.capacity = (clampCapacity n).toNat := by
  intro n pre blk s h
  obtain ⟨h1, h2, -, -, -⟩ := reaches_inv h
  exact ⟨h1 ▸ h2, h1, reaches_capacity h⟩

/-- Concrete instantiation of `C4_live_workers_le_capacity`: a
pre-allocated pool of requested capacity 2, one step after `New`. -/
theorem C4_live_workers_le_capacity_witness :
    ∃ s : PoolState, Reaches (New 2 true true) s ∧
      live s ≤ s.capacity ∧ s.active = live s ∧
      s.capacity = (clampCapacity 2).toNat := by
  refine ⟨_, (Reaches.refl _).tail (Step.schedToWorker _ 1 (by decide) rfl), ?_⟩
  exact C4_live_workers_le_capacity 2 true true _
    ((Reaches.refl _).tail (Step.schedToWorker _ 1 (by decide) rfl))

/-- Claim C5: a worker releases its capacity slot exactly once on every
exit path.  The quit-exit and the panic-exit each return exactly one
token to `active` and retire exactly one worker; a panic exit changes
nothing else (the pool does not crash and other workers, idle or busy,
are untouched); finishing a task normally releases nothing; and globally
the occupied slots always equal the live workers, so no slot is ever
released twice. -/
theorem C5_slot_released_once_on_exit :
    (∀ s s2 : PoolState, Step s .workerQuitExit s2 →
        s2.active + 1 = s.active ∧ live s2 + 1 = live s) ∧
    (∀ (s s2 : PoolState) (t : TaskId), Step s (.workerFault t) s2 →
        s2.active + 1 = s.active ∧ live s2 + 1 = live s ∧
        s2.panicked = s.panicked ∧ s2.idle = s.idle ∧
        s2.quitClosed = s.quitClosed ∧ s2.runPC = s.runPC ∧
        s2.sched = s.sched ∧
        ∃ l1 l2, s.busy = l1 ++ t :: l2 ∧ s2.busy = l1 ++ l2) ∧
    (∀ (s s2 : PoolState) (t : TaskId), Step s (.workerFinish t) s2 →
        s2.active = s.active) ∧
    (∀ (n : Int) (pre blk : Bool) (s : PoolState),
        Reaches (New n pre blk) s → s.active = live s) := by
  refine ⟨?_, ?_, ?_, ?_⟩
  · intro s s2 h
    cases h with
    | workerQuitExit hq hi ha =>
        constructor
        · show s.active - 1 + 1 = s.active; omega
        · show s.idle - 1 + s.busy.length + 1 = s.idle + s.busy.length
          omega
  · intro s s2 t h
    cases h with
    | workerFault t l1 l2 hb ha =>
        refine ⟨?_, ?_, rfl, rfl, rfl, rfl, rfl, l1, l2, hb, rfl⟩
        · show s.active - 1 + 1 = s.active; omega
        · show s.idle + (l1 ++ l2).length + 1 = s.idle + s.busy.length
          rw [hb]; simp [List.length_append]; omega
  · intro s s2 t h
    cases h with
    | workerFinish t l1 l2 hb => rfl
  · intro n pre blk s h
    exact (reaches_inv h).1

/-- Claim C3 (amended part): every task for which `Schedule` returned
`nil` has either begun execution on a worker or is still held by a
blocked `returnTask` re-sender of the spawn loop's re-submission path. -/
theorem C3_accepted_task_started_or_pending :
    ∀ (n : Int) (pre blk : Bool) (s : PoolState),
      Reaches (New n pre blk) s →
      ∀ t : TaskId, s.sched t = some .retNil →
        t ∈ s.started ∨ t ∈ s.pendingReturns := by
  intro n pre blk s h t ht
  exact (reaches_inv h).2.2.2.2 t ht

/-- Concrete instantiation of `C3_accepted_task_started_or_pending`: in a
pre-allocated pool, a task handed directly to a worker. -/
theorem C3_accepted_task_started_or_pending_witness :
    ∃ s : PoolState, Reaches (New 2 true true) s ∧
      s.sched 1 = some .retNil ∧ (1 ∈ s.started ∨ 1 ∈ s.pendingReturns) := by
  refine ⟨_, (Reaches.refl _).tail (Step.schedToWorker _ 1 (by decide) rfl),
    rfl, ?_⟩
  exact C3_accepted_task_started_or_pending 2 true true _
    ((Reaches.refl _).tail (Step.schedToWorker _ 1 (by decide) rfl)) 1 rfl

/-- Claim C3 is refuted on the lazy re-submission path: in a lazy pool of
capacity 1, `Schedule 1` returns `nil` by handing the task to the spawn
loop, which re-submits it via `returnTask`; the spawn loop then observes
the quit signal and exits, `Free` returns, and task 1 is never executed
in any continuation of this execution, although `Schedule` accepted it. -/
theorem C3_counterexample :
    ∃ s : PoolState,
      Reaches (New 1 false true) s ∧ s.sched 1 = some .retNil ∧
      s.freeReturned = true ∧ 1 ∉ s.started ∧
      ∀ s2, Reaches s s2 → 1 ∉ s2.started := by
  refine ⟨_, ((((Reaches.refl _).tail
      (Step.schedToRun _ 1 rfl rfl)).tail
      (Step.freeClose _ rfl)).tail
      (Step.runLazyQuit _ rfl rfl)).tail
      (Step.freeReturn _ rfl rfl rfl),
    rfl, rfl, List.not_mem_nil 1, ?_⟩
  intro s2 hr
  obtain ⟨-, hst, -⟩ := dead_reaches ⟨rfl, rfl, rfl, rfl⟩ hr
  rw [hst]
  exact List.not_mem_nil 1

/-- Claim C1 is refuted: in a lazy pool, `Free` can return (the quit
channel closed and `wg.Wait` done with zero workers) while the `run`
goroutine is still parked on the bare receive `for t := range p.tasks`;
a later `Schedule` call's send case is therefore ready, its `select` may
choose it over the ready quit case, and `Schedule` returns `nil` after
shutdown has completed. -/
theorem C1_counterexample :
    ∃ s s2 : PoolState,
      Reaches (New 1 false true) s ∧ s.freeReturned = true ∧
      Step s (.schedToRun 1) s2 ∧ s2.sched 1 = some .retNil := by
  refine ⟨_, _, ((Reaches.refl _).tail (Step.freeClose _ rfl)).tail
      (Step.freeReturn _ rfl rfl rfl),
    rfl, Step.schedToRun _ 1 rfl rfl, rfl⟩

/-- Claim C1 (amended): after `Free` has returned, `Schedule` never
returns `ErrNoIdleWorkerInPool`: the `schedNoIdle` resolution is
impossible, the quit case always yields `ErrWorkerPoolFreed` and is
always available for a fresh call, and any resolution of a fresh call
yields `ErrWorkerPoolFreed` or (through a still-listening receiver)
`nil`. -/
theorem C1_schedule_after_free :
    ∀ (n : Int) (pre blk : Bool) (s : PoolState),
      Reaches (New n pre blk) s → s.freeReturned = true →
      (∀ (t : TaskId) (s2 : PoolState), ¬ Step s (.schedNoIdle t) s2) ∧
      (∀ (t : TaskId) (s2 : PoolState), Step s (.schedFreed t) s2 →
          s2.sched t = some .retFreed) ∧
      (∀ t : TaskId, s.sched t = none → ∃ s2, Step s (.schedFreed t) s2) ∧
      (∀ (t : TaskId) (l : Label) (s2 : PoolState),
          Step s l s2 → SchedEntry l t →
          s2.sched t = some .retFreed ∨ s2.sched t = some .retNil) := by
  intro n pre blk s h hfree
  obtain ⟨-, -, hwq, hfw, -⟩ := reaches_inv h
  have hq : s.quitClosed = true := hwq (hfw hfree)
  refine ⟨?_, ?_, ?_, ?_⟩
  · intro t s2 hs
    cases hs with
    | schedNoIdle t hq2 hi hr hb hfresh => rw [hq] at hq2; exact absurd hq2 (by simp)
  · intro t s2 hs
    cases hs with
    | schedFreed t hq2 hfresh =>
        show Function.update s.sched t (some .retFreed) t = some .retFreed
        rw [Function.update_same]
  · intro t hfresh
    exact ⟨_, Step.schedFreed s t hq hfresh⟩
  · intro t l s2 hs hentry
    rcases hentry with he | he | he | he | he <;> subst he
    · left
      cases hs with
      | schedFreed t hq2 hfresh =>
          show Function.update s.sched t (some .retFreed) t = some .retFreed
          rw [Function.update_same]
    · right
      cases hs with
      | schedToWorker t hi hfresh =>
          show Function.update s.sched t (some .retNil) t = some .retNil
          rw [Function.update_same]
    · right
      cases hs with
      | schedToRun t hr hfresh =>
          show Function.update s.sched t (some .retNil) t = some .retNil
          rw [Function.update_same]
    · cases hs with
      | schedNoIdle t hq2 hi hr hb hfresh =>
          rw [hq] at hq2; exact absurd hq2 (by simp)
    · cases hs with
      | schedBlock t hq2 hi hr hb hfresh =>
          rw [hq] at hq2; exact absurd hq2 (by simp)

/-- Concrete instantiation of `C1_schedule_after_free`: the lazy pool of
capacity 1 on which `Free` has completed. -/
theorem C1_schedule_after_free_witness :
    ∃ s : PoolState, Reaches (New 1 false true) s ∧ s.freeReturned = true ∧
      (∀ (t : TaskId) (s2 : PoolState), ¬ Step s (.schedNoIdle t) s2) := by
  refine ⟨_, ((Reaches.refl _).tail (Step.freeClose _ rfl)).tail
      (Step.freeReturn _ rfl rfl rfl), rfl, ?_⟩
  exact (C1_schedule_after_free 1 false true _
    (((Reaches.refl _).tail (Step.freeClose _ rfl)).tail
      (Step.freeReturn _ rfl rfl rfl)) rfl).1

/-- Claim C2 is refuted: after a completed first `Free`, a second `Free`
call executes `close(p.quit)` on the already-closed channel, which
panics. -/
theorem C2_counterexample :
    ∃ s s2 : PoolState,
      Reaches (New 1 false true) s ∧ s.freeReturned = true ∧
      Step s .freeCloseAgain s2 ∧ s2.panicked = true := by
  refine ⟨_, _, ((Reaches.refl _).tail (Step.freeClose _ rfl)).tail
      (Step.freeReturn _ rfl rfl rfl),
    rfl, Step.freeCloseAgain _ rfl, rfl⟩

/-- Claim C2 (amended): a second `Free` call always panics immediately
(close of a closed channel); it does not hang and does not double-release
resources: the panicking step exists from every state with `quit` closed
and changes nothing except the panic flag — in particular no capacity
slot is released and no worker is retired a second time. -/
theorem C2_second_free_panics :
    ∀ s : PoolState, s.quitClosed = true →
      (∃ s2, Step s .freeCloseAgain s2) ∧
      (∀ s2, Step s .freeCloseAgain s2 →
        s2.panicked = true ∧ s2.active = s.active ∧ live s2 = live s ∧
        s2.idle = s.idle ∧ s2.busy = s.busy ∧
        s2.quitClosed = s.quitClosed ∧ s2.sched = s.sched) := by
  intro s hq
  refine ⟨⟨_, Step.freeCloseAgain s hq⟩, ?_⟩
  intro s2 hs
  cases hs with
  | freeCloseAgain hq2 => exact ⟨rfl, rfl, rfl, rfl, rfl, rfl, rfl⟩

/-- Concrete instantiation of `C2_second_free_panics` at the pool state
reached after a completed first `Free`. -/
theorem C2_second_free_panics_witness :
    ∃ s : PoolState, Reaches (New 1 false true) s ∧ s.quitClosed = true ∧
      (∃ s2, Step s .freeCloseAgain s2) := by
  refine ⟨_, ((Reaches.refl _).tail (Step.freeClose _ rfl)).tail
      (Step.freeReturn _ rfl rfl rfl), rfl, ?_⟩
  exact (C2_second_free_panics _ rfl).1

/-- Claim C6 is refuted: after the quit channel is closed, the spawn loop
of a lazy pool that is at its inner `select` may still take the
slot-acquire case (both cases are ready, Go chooses either) and spawn a
new worker. -/
theorem C6_counterexample :
    ∃ s s2 : PoolState,
      Reaches (New 2 false true) s ∧ s.quitClosed = true ∧
      Step s .runLazySpawn s2 ∧ live s2 = live s + 1 ∧
      s2.quitClosed = true := by
  refine ⟨_, _, ((Reaches.refl _).tail (Step.schedToRun _ 1 rfl rfl)).tail
      (Step.freeClose _ rfl),
    rfl, Step.runLazySpawn _ rfl (by decide), rfl, rfl⟩

/-- Claim C6 (amended): once the spawn loop has observed the quit signal
and exited, no step of any execution ever increases the number of live
workers, and, when the quit channel is closed, every idle worker can take
its quit-exit step. -/
theorem C6_no_spawn_after_run_exit :
    ∀ (n : Int) (pre blk : Bool) (s : PoolState),
      Reaches (New n pre blk) s → s.runPC = .done →
      (∀ (l : Label) (s2 : PoolState), Step s l s2 →
          live s2 ≤ live s ∧ s2.runPC = .done) ∧
      (s.quitClosed = true → 1 ≤ s.idle →
          ∃ s2, Step s .workerQuitExit s2) := by
  intro n pre blk s h hdone
  constructor
  · intro l s2 hs
    cases hs with
    | schedFreed t hq hfresh => exact ⟨le_refl _, hdone⟩
    | schedToWorker t hi hfresh =>
        constructor
        · show s.idle - 1 + (t :: s.busy).length ≤ live s
          simp only [live, List.length_cons]; omega
        · exact hdone
    | schedToRun t hr hfresh => rw [hdone] at hr; exact absurd hr (by simp)
    | schedNoIdle t hq hi hr hb hfresh => exact ⟨le_refl _, hdone⟩
    | schedBlock t hq hi hr hb hfresh => exact ⟨le_refl _, hdone⟩
    | workerTakeCall t hi hp =>
        constructor
        · show s.idle - 1 + (t :: s.busy).length ≤ live s
          simp only [live, List.length_cons]; omega
        · exact hdone
    | runTakeCall t hr hp => rw [hdone] at hr; exact absurd hr (by simp)
    | workerTakeReturn t rest hi hp =>
        constructor
        · show s.idle - 1 + (t :: s.busy).length ≤ live s
          simp only [live, List.length_cons]; omega
        · exact hdone
    | runTakeReturn t rest hr hp => rw [hdone] at hr; exact absurd hr (by simp)
    | runLazyQuit hr hq => rw [hdone] at hr; exact absurd hr (by simp)
    | runLazySpawn hr hc => rw [hdone] at hr; exact absurd hr (by simp)
    | runLazyBreak hr hq hc => rw [hdone] at hr; exact absurd hr (by simp)
    | runSteadySpawn hr hc => rw [hdone] at hr; exact absurd hr (by simp)
    | runSteadyQuit hr hq => rw [hdone] at hr; exact absurd hr (by simp)
    | workerFinish t l1 l2 hb =>
        constructor
        · show s.idle + 1 + (l1 ++ l2).length ≤ live s
          simp only [live, hb, List.length_append, List.length_cons]; omega
        · exact hdone
    | workerFault t l1 l2 hb ha =>
        constructor
        · show s.idle + (l1 ++ l2).length ≤ live s
          simp only [live, hb, List.length_append, List.length_cons]; omega
        · exact hdone
    | workerQuitExit hq hi ha =>
        constructor
        · show s.idle - 1 + s.busy.length ≤ live s
          simp only [live]; omega
        · exact hdone
    | freeClose hq => exact ⟨le_refl _, hdone⟩
    | freeCloseAgain hq => exact ⟨le_refl _, hdone⟩
    | freeReturn hw hi hb => exact ⟨le_refl _, hdone⟩
  · intro hq hi
    obtain ⟨h1, -, -, -, -⟩ := reaches_inv h
    have ha : 1 ≤ s.active := by
      rw [h1]; simp only [live]; omega
    exact ⟨_, Step.workerQuitExit s hq hi ha⟩

/-- Concrete instantiation of `C6_no_spawn_after_run_exit` at a reachable
state of a lazy pool whose spawn loop has exited with one idle worker
still live. -/
theorem C6_no_spawn_after_run_exit_witness :
    ∃ s : PoolState, Reaches (New 2 false true) s ∧ s.runPC = .done ∧
      (∃ s2, Step s .workerQuitExit s2) := by
  have tr := (((((Reaches.refl (New 2 false true)).tail
      (Step.schedToRun _ 1 rfl rfl)).tail
      (Step.runLazySpawn _ rfl (by decide))).tail
      (Step.schedToRun _ 2 rfl rfl)).tail
      (Step.freeClose _ rfl)).tail
      (Step.runLazyQuit _ rfl rfl)
  exact ⟨_, tr, rfl,
    (C6_no_spawn_after_run_exit 2 false true _ tr rfl).2 rfl (by decide)⟩

/-- Claim C7: when a `Schedule t` call finds the quit channel open and no
receiver parked on `tasks` (no idle worker, and the spawn loop not at its
lazy receive), then: with `block = false` the call resolves, uniquely and
immediately, to `ErrNoIdleWorkerInPool`; with `block = true` it uniquely
commits to the blocking send, a call blocked there is resolved to `nil`
whenever an idle worker takes it, and any resolution of a blocked call
yields `nil`. -/
theorem C7_schedule_no_ready_worker :
    (∀ (s : PoolState) (t : TaskId),
        s.quitClosed = false → s.idle = 0 → s.runPC ≠ .lazyRecv →
        s.sched t = none → s.block = false →
        (∃ s2, Step s (.schedNoIdle t) s2) ∧
        (∀ (l : Label) (s2 : PoolState), Step s l s2 → SchedEntry l t →
            l = .schedNoIdle t) ∧
        (∀ s2 : PoolState, Step s (.schedNoIdle t) s2 →
            s2.sched t = some .retNoIdle)) ∧
    (∀ (s : PoolState) (t : TaskId),
        s.quitClosed = false → s.idle = 0 → s.runPC ≠ .lazyRecv →
        s.sched t = none → s.block = true →
        (∃ s2, Step s (.schedBlock t) s2) ∧
        (∀ (l : Label) (s2 : PoolState), Step s l s2 → SchedEntry l t →
            l = .schedBlock t) ∧
        (∀ s2 : PoolState, Step s (.schedBlock t) s2 →
            s2.sched t = some .pending)) ∧
    (∀ (s : PoolState) (t : TaskId), s.sched t = some .pending →
        1 ≤ s.idle →
        ∃ s2, Step s (.workerTakeCall t) s2 ∧ s2.sched t = some .retNil) ∧
    (∀ (s s2 : PoolState) (l : Label) (t : TaskId),
        s.sched t = some .pending → Step s l s2 →
        s2.sched t = some .pending ∨ s2.sched t = some .retNil) := by
  refine ⟨?_, ?_, ?_, ?_⟩
  · intro s t hq hi hr hfresh hb
    refine ⟨⟨_, Step.schedNoIdle s t hq hi hr hb hfresh⟩, ?_, ?_⟩
    · intro l s2 hs hentry
      rcases hentry with he | he | he | he | he <;> subst he
      · cases hs with
        | schedFreed t hq2 hfresh2 => rw [hq] at hq2; exact absurd hq2 (by simp)
      · cases hs with
        | schedToWorker t hi2 hfresh2 => omega
      · cases hs with
        | schedToRun t hr2 hfresh2 => exact absurd hr2 hr
      · rfl
      · cases hs with
        | schedBlock t hq2 hi2 hr2 hb2 hfresh2 =>
            rw [hb] at hb2; exact absurd hb2 (by simp)
    · intro s2 hs
      cases hs with
      | schedNoIdle t hq2 hi2 hr2 hb2 hfresh2 =>
          show Function.update s.sched t (some .retNoIdle) t
              = some .retNoIdle
          rw [Function.update_same]
  · intro s t hq hi hr hfresh hb
    refine ⟨⟨_, Step.schedBlock s t hq hi hr hb hfresh⟩, ?_, ?_⟩
    · intro l s2 hs hentry
      rcases hentry with he | he | he | he | he <;> subst he
      · cases hs with
        | schedFreed t hq2 hfresh2 => rw [hq] at hq2; exact absurd hq2 (by simp)
      · cases hs with
        | schedToWorker t hi2 hfresh2 => omega
      · cases hs with
        | schedToRun t hr2 hfresh2 => exact absurd hr2 hr
      · cases hs with
        | schedNoIdle t hq2 hi2 hr2 hb2 hfresh2 =>
            rw [hb] at hb2; exact absurd hb2 (by simp)
      · rfl
    · intro s2 hs
      cases hs with
      | schedBlock t hq2 hi2 hr2 hb2 hfresh2 =>
          show Function.update s.sched t (some .pending) t = some .pending
          rw [Function.update_same]
  · intro s t hp hi
    refine ⟨_, Step.workerTakeCall s t hi hp, ?_⟩
    show Function.update s.sched t (some .retNil) t = some .retNil
    rw [Function.update_same]
  · intro s s2 l t hp hs
    exact pending_step hp hs

/-- Claim C10: once `Schedule` has committed to the unconditional
blocking send of the `p.block` branch, no step can resolve the call to an
error — every resolution yields `nil` — and the shutdown path never
unblocks it: there is a reachable execution of a pre-allocated pool in
which `Free` has returned while a committed call is still blocked, and in
every continuation of that execution it stays blocked forever. -/
theorem C10_blocking_send_never_freed :
    (∀ (s s2 : PoolState) (l : Label) (t : TaskId),
        s.sched t = some .pending → Step s l s2 →
        s2.sched t = some .pending ∨ s2.sched t = some .retNil) ∧
    (∃ s : PoolState,
        Reaches (New 1 true true) s ∧ s.freeReturned = true ∧
        s.sched 1 = some .pending ∧
        ∀ s2, Reaches s s2 → s2.sched 1 = some .pending) := by
  constructor
  · intro s s2 l t hp hs
    exact pending_step hp hs
  · refine ⟨_, (((((((Reaches.refl (New 1 true true)).tail
        (Step.schedToWorker _ 0 (by decide) rfl)).tail
        (Step.schedBlock _ 1 rfl rfl (by decide) rfl rfl)).tail
        (Step.freeClose _ rfl)).tail
        (Step.runSteadyQuit _ rfl rfl)).tail
        (Step.workerFinish _ 0 [] [] rfl)).tail
        (Step.workerQuitExit _ rfl (by decide) (by decide))).tail
        (Step.freeReturn _ rfl rfl rfl),
      rfl, rfl, ?_⟩
    intro s2 hr
    obtain ⟨-, -, hp⟩ := dead_reaches ⟨rfl, rfl, rfl, rfl⟩ hr
    exact hp 1 rfl

end Workerpool
